import Mathlib

/-!
Verification development for the browser audio pipeline of the quiz game.

The definitions below are a shallow embedding of the audio-related source
functions of `src/App.tsx` (and its variant `src/unnamed/part_000`):
`decodeBase64`, `decodeAudioData`, `shuffleArray`, `checkApiKey`,
`initAudio`, `stopCurrentAudio` and `playTTS`.

Modelling conventions:
- bytes are `Nat` values below 256; byte buffers are `List Nat`;
- the browser primitive `atob` is embedded as the forgiving-base64 decode
  algorithm it implements, returning `Option (List Nat)` (`none` models the
  `InvalidCharacterError` exception that `decodeBase64` catches);
- audio samples are exact rationals (`Rat`); every value `v / 32768.0`
  produced by the source for a 16-bit `v` is exactly representable in the
  source's doubles, so rational arithmetic is faithful;
- the mutable component state (`audioContextRef`, `currentSourceRef`,
  `isLoadingAudio`, `apiError`) is an explicit `AudioState` record threaded
  through the operations; sound sources are identified by numeric handles,
  and a handle is "active" when it has been started and not stopped;
- fallible external calls (`AudioContext.resume`, the remote synthesis
  request, `source.stop` on a never-started source) are modelled with
  `Except`/oracle flags; a JavaScript exception escaping a function is an
  `Except.error` result, and a `try`/`catch` is a `match` on such a result.
-/

/-! ### Base64 decoding (`decodeBase64` and the `atob` primitive) -/

/-- The standard base64 alphabet, in index order. -/
def base64Chars : List Char :=
  "ABCDEFGHIJKLMNOPQRSTUVWXYZabcdefghijklmnopqrstuvwxyz0123456789+/".toList

/-- Index of a character in the base64 alphabet, `none` if it is not there. -/
def b64Index (c : Char) : Option Nat :=
  base64Chars.findIdx? (fun d => d = c)

/-- Character of the base64 alphabet at a given index. -/
def b64Char (v : Nat) : Char :=
  base64Chars.getD v 'A'

/-- Characters removed by forgiving-base64 before decoding (ASCII whitespace). -/
def isB64Ws (c : Char) : Bool :=
  c = ' ' ∨ c = '\t' ∨ c = '\n' ∨ c = '\x0d' ∨ c = '\x0c'

/-- Strip at most two trailing padding characters. -/
def stripPad (l : List Char) : List Char :=
  let l1 := if l.getLast? = some '=' then l.dropLast else l
  if l1.getLast? = some '=' then l1.dropLast else l1

/-- Map every character to its alphabet index, failing on a foreign character. -/
def mapB64 : List Char → Option (List Nat)
  | [] => some []
  | c :: rest =>
    match b64Index c, mapB64 rest with
    | some v, some vs => some (v :: vs)
    | _, _ => none

/-- Reassemble bytes from 6-bit groups, discarding leftover bits
(forgiving-base64 output step). -/
def decodeB64Chunks : List Nat → List Nat
  | a :: b :: c :: d :: rest =>
    (a * 4 + b / 16) :: ((b % 16) * 16 + c / 4) :: ((c % 4) * 64 + d) ::
      decodeB64Chunks rest
  | [a, b] => [a * 4 + b / 16]
  | [a, b, c] => [a * 4 + b / 16, (b % 16) * 16 + c / 4]
  | _ => []

/-- The browser primitive `atob`: forgiving-base64 decode. `none` models the
`InvalidCharacterError` exception. -/
def atob (s : String) : Option (List Nat) :=
  let data0 := s.toList.filter (fun c => !(isB64Ws c))
  let data1 := if data0.length % 4 = 0 then stripPad data0 else data0
  if data1.length % 4 = 1 then none
  else
    match mapB64 data1 with
    | none => none
    | some vals => some (decodeB64Chunks vals)

/-- Embedding of the source function `decodeBase64`: `atob` wrapped in
`try`/`catch`, returning an empty byte sequence when `atob` throws. -/
def decodeBase64 (base64 : String) : List Nat :=
  match atob base64 with
  | some bytes => bytes
  | none => []

/-! A reference base64 encoder, used to state what "a valid base64 string
encoding N bytes" means for the round-trip property. -/

/-- Encode bytes three at a time into base64 characters with standard
padding. -/
def encodeChunks : List Nat → List Char
  | x :: y :: z :: rest =>
    b64Char (x / 4) :: b64Char ((x % 4) * 16 + y / 16) ::
      b64Char ((y % 16) * 4 + z / 64) :: b64Char (z % 64) :: encodeChunks rest
  | [x, y] => [b64Char (x / 4), b64Char ((x % 4) * 16 + y / 16),
      b64Char ((y % 16) * 4), '=']
  | [x] => [b64Char (x / 4), b64Char ((x % 4) * 16), '=', '=']
  | [] => []

/-- Standard base64 encoding of a byte sequence. -/
def encodeBase64 (bytes : List Nat) : String :=
  String.mk (encodeChunks bytes)

/-- The 6-bit values of the encoding, without the padding characters. -/
def encVals : List Nat → List Nat
  | x :: y :: z :: rest =>
    x / 4 :: ((x % 4) * 16 + y / 16) :: ((y % 16) * 4 + z / 64) :: z % 64 ::
      encVals rest
  | [x, y] => [x / 4, (x % 4) * 16 + y / 16, (y % 16) * 4]
  | [x] => [x / 4, (x % 4) * 16]
  | [] => []

/-! ### PCM decoding (`decodeAudioData`) -/

/-- A little-endian signed 16-bit sample from its two bytes
(the `Int16Array` view). -/
def toInt16 (lo hi : Nat) : Int :=
  if lo + 256 * hi < 32768 then ((lo + 256 * hi : Nat) : Int)
  else ((lo + 256 * hi : Nat) : Int) - 65536

/-- The `Int16Array` view of a byte buffer: consecutive little-endian pairs,
a trailing odd byte dropped (the view length is `byteLength / 2`, floored). -/
def toInt16List : List Nat → List Int
  | lo :: hi :: rest => toInt16 lo hi :: toInt16List rest
  | _ => []

/-- The decoded audio buffer produced by `decodeAudioData`
(`ctx.createBuffer` plus the filled channel data). -/
structure AudioBuffer where
  sampleRate : Nat
  numChannels : Nat
  channels : List (List Rat)
deriving DecidableEq

/-- Embedding of the source function `decodeAudioData`: interpret the bytes
as 16-bit little-endian PCM, compute `frameCount = dataInt16.length /
numChannels`, and fill channel `c`, frame `i` with
`dataInt16[i * numChannels + c] / 32768.0`. The `ctx.createBuffer` call
throws `NotSupportedError` when its channel count or length argument is
zero (Web Audio: a value "negative, zero, or outside its nominal range"),
modelled by `Except.error`; the sample rate the source passes, 24000, is
inside the nominal range, so no rate guard is modelled. -/
def decodeAudioData (data : List Nat) (sampleRate numChannels : Nat) :
    Except Unit AudioBuffer :=
  let dataInt16 := toInt16List data
  let frameCount := dataInt16.length / numChannels
  if numChannels = 0 ∨ frameCount = 0 then Except.error ()
  else
    Except.ok
      { sampleRate := sampleRate
        numChannels := numChannels
        channels := (List.range numChannels).map (fun channel =>
          (List.range frameCount).map (fun i =>
            ((dataInt16.getD (i * numChannels + channel) 0 : Int) : Rat) / 32768)) }

/-! ### Option shuffling (`shuffleArray`) -/

/-- Exchange the elements at two positions (the destructuring swap of the
source; both indices are always in range there, and the out-of-range guard
makes the embedding total). -/
def listSwap {α : Type} (l : List α) (i j : Nat) : List α :=
  match l[i]?, l[j]? with
  | some a, some b => (l.set i b).set j a
  | _, _ => l

/-- The Fisher-Yates loop of `shuffleArray`: for `i` from `length - 1` down
to `1`, swap position `i` with position `r i` (the source draws
`r i = floor(random * (i + 1))`, always at most `i`). -/
def shuffleAux {α : Type} (r : Nat → Nat) : Nat → List α → List α
  | 0, l => l
  | i + 1, l => shuffleAux r i (listSwap l (i + 1) (r (i + 1)))

/-- Embedding of the source function `shuffleArray`: copy the input
(value semantics of the embedding) and run the Fisher-Yates loop, `r` giving
the outcome of each `Math.random` draw. -/
def shuffleArray {α : Type} (r : Nat → Nat) (array : List α) : List α :=
  shuffleAux r (array.length - 1) array

/-! ### Credential check (`checkApiKey`) -/

/-- Embedding of the source function `checkApiKey`: the key read from the
environment is invalid when absent, falsy (empty), the literal string
`undefined`, or shorter than 10 characters. -/
def checkApiKey (envKey : Option String) : Bool :=
  match envKey with
  | none => false
  | some key =>
    if key = "undefined" ∨ key = "" ∨ key.length < 10 then false else true

/-- The invalidity condition exactly as the specification words it
(for comparison with `checkApiKey`). -/
def keyInvalidSpec (envKey : Option String) : Prop :=
  envKey = none ∨
    ∃ k, envKey = some k ∧ (k = "undefined" ∨ k = "" ∨ k.length < 10)

/-! ### Component state and audio session (`initAudio`) -/

/-- The underlying `AudioContext`: its fixed sample rate, whether it is
running (versus suspended), and a construction identity. -/
structure AudioCtx where
  sampleRate : Nat
  running : Bool
  id : Nat
deriving DecidableEq

/-- The mutable component state: `audioContextRef` (plus a count of
constructor calls), `currentSourceRef` (a handle id), the set of handles
started and stopped so far, a fresh-handle counter, the buffers bound to
handles, and the `isLoadingAudio` / `apiError` indicators. -/
structure AudioState where
  ctx : Option AudioCtx
  ctxCount : Nat
  current : Option Nat
  started : List Nat
  stopped : List Nat
  nextHandle : Nat
  buffers : List (Nat × AudioBuffer)
  loading : Bool
  apiError : Bool
deriving DecidableEq

/-- Oracle for the external behaviour of one `initAudio` call: whether a
freshly constructed context starts suspended (autoplay policy), and whether
`resume()` rejects. -/
structure InitEnv where
  newSuspended : Bool
  resumeFails : Bool
deriving DecidableEq

/-- Embedding of the source function `initAudio`: construct the context on
first use with sample rate 24000, resume it when suspended (this external
call can reject, modelled by `Except.error`), and return it. -/
def initAudio (e : InitEnv) (s : AudioState) : Except Unit (AudioCtx × AudioState) :=
  let p : AudioCtx × AudioState :=
    match s.ctx with
    | some c => (c, s)
    | none =>
      let c : AudioCtx :=
        { sampleRate := 24000, running := !e.newSuspended, id := s.ctxCount }
      (c, { s with ctx := some c, ctxCount := s.ctxCount + 1 })
  if p.1.running then Except.ok p
  else if e.resumeFails then Except.error ()
  else
    let c := { p.1 with running := true }
    Except.ok (c, { p.2 with ctx := some c })

/-! ### Playback stop (`stopCurrentAudio`) -/

/-- The platform `stop()` on a buffer source: throws (`InvalidStateError`)
when the source was never started, otherwise marks it stopped. -/
def sourceStop (h : Nat) (s : AudioState) : Except Unit AudioState :=
  if h ∈ s.started then Except.ok { s with stopped := h :: s.stopped }
  else Except.error ()

/-- Embedding of the source function `stopCurrentAudio`: when a source is
tracked, try to stop it, swallowing any exception, and clear the reference
in every case; when none is tracked, do nothing. -/
def stopCurrentAudio (s : AudioState) : AudioState :=
  match s.current with
  | none => s
  | some h =>
    match sourceStop h s with
    | Except.ok s1 => { s1 with current := none }
    | Except.error _ => { s with current := none }

/-! ### Speech playback (`playTTS`) -/

/-- The playback-start block of `playTTS` once a payload has been decoded:
create a source bound to the decoded buffer, track it as current, start it,
and clear the error indicator. (The `onended` callback clearing
`isLoadingAudio` fires only at natural completion, after the call has
settled, so it is not part of the call's effect.) -/
def startPlayback (buf : AudioBuffer) (h : Nat) (s : AudioState) : AudioState :=
  { s with buffers := (h, buf) :: s.buffers
           current := some h
           started := h :: s.started
           apiError := false }

deriving instance DecidableEq for Except

/-- Oracle for the external behaviour of one `playTTS` call: the `initAudio`
oracle, the key read from the environment, and the outcome of the remote
synthesis request (`Except.error` a rejection, `Except.ok none` a response
with no audio payload, `Except.ok (some b64)` a payload). -/
structure TTSEnv where
  init : InitEnv
  apiKey : Option String
  request : Except Unit (Option String)
deriving DecidableEq

/-- The `try` block of `playTTS`: key check (a falsy or placeholder key
throws), the remote request (which can reject), then either the silent
no-payload path, or decoding (whose `createBuffer` can throw) followed by
`startPlayback`. An `Except.error` result carries the state at the point of
the throw, for the `catch` clause. -/
def ttsTry (e : TTSEnv) (s : AudioState) : Except AudioState AudioState :=
  match e.apiKey with
  | none => Except.error s
  | some k =>
    if k = "" ∨ k = "undefined" then Except.error s
    else
      match e.request with
      | Except.error _ => Except.error s
      | Except.ok none => Except.ok s
      | Except.ok (some b64) =>
        match decodeAudioData (decodeBase64 b64) 24000 1 with
        | Except.error _ => Except.error s
        | Except.ok buf =>
          Except.ok { startPlayback buf s.nextHandle s with
                        nextHandle := s.nextHandle + 1 }

/-- Embedding of the source function `playTTS`: stop the current source,
acquire the session (outside the `try` block, so a rejection here escapes
the function, modelled by `Except.error`), raise the loading indicator, then
run the `try` block; its `catch` clears the loading indicator and sets the
user-facing voice-unavailable error. -/
def playTTS (e : TTSEnv) (s : AudioState) : Except Unit AudioState :=
  let s0 := stopCurrentAudio s
  match initAudio e.init s0 with
  | Except.error u => Except.error u
  | Except.ok (_c, s1) =>
    let s2 := { s1 with loading := true }
    match ttsTry e s2 with
    | Except.ok s3 => Except.ok s3
    | Except.error sErr => Except.ok { sErr with loading := false, apiError := true }

/-! ### Interleaving model for overlapping `playTTS` calls -/

/-- `initAudio` under an oracle where construction yields a running context
and resume succeeds; used for the interleaving model, where session
acquisition is not the failing step. -/
def initAudioTotal (s : AudioState) : AudioState :=
  match initAudio { newSuspended := false, resumeFails := false } s with
  | Except.ok (_, s1) => s1
  | Except.error _ => s

/-- One scheduler-atomic segment of a `playTTS` call whose request succeeds
with payload `b64` and whose source gets handle `h`. The segments are
delimited by the call's `await` points:
segment 0 is `stopCurrentAudio` plus session acquisition, segment 1 raises
the loading indicator and issues the request, segment 2 handles the response
by decoding the payload and starting playback (a decode failure falls to
the call's catch clause). -/
def speakStep (h : Nat) (b64 : String) (pc : Nat) (s : AudioState) : AudioState :=
  match pc with
  | 0 => initAudioTotal (stopCurrentAudio s)
  | 1 => { s with loading := true }
  | 2 =>
    match decodeAudioData (decodeBase64 b64) 24000 1 with
    | Except.error _ => { s with loading := false, apiError := true }
    | Except.ok buf => startPlayback buf h s
  | _ => s

/-- Run an interleaving of two `playTTS` calls with handles `hA` and `hB`:
each list entry picks which call performs its next segment (`true` the
first call, `false` the second). Both calls carry the payload "AAA=",
a valid one-frame encoding, so both decodes succeed as in the overlap
scenario. -/
def runCallsAux (hA hB : Nat) : List Bool → Nat → Nat → AudioState → AudioState
  | [], _, _, s => s
  | pick :: rest, pa, pb, s =>
    if pick then runCallsAux hA hB rest (pa + 1) pb (speakStep hA "AAA=" pa s)
    else runCallsAux hA hB rest pa (pb + 1) (speakStep hB "AAA=" pb s)

/-- Execute a complete schedule of the two overlapping calls. -/
def runCalls (hA hB : Nat) (sched : List Bool) (s : AudioState) : AudioState :=
  runCallsAux hA hB sched 0 0 s

/-- Number of steps a schedule gives to the first call. -/
def countTrue (l : List Bool) : Nat :=
  (l.filter (fun b => b)).length

/-- All boolean lists of a given length (used to decide properties over all
schedules). -/
def boolLists : Nat → List (List Bool)
  | 0 => [[]]
  | n + 1 => (boolLists n).flatMap (fun l => [true :: l, false :: l])

/-- The handles that are active (started and not stopped) in a state. -/
def activeHandles (s : AudioState) : List Nat :=
  s.started.filter (fun h => !(s.stopped.contains h))

/-! ### Concrete states and oracles used by the evaluations -/

/-- The component state right after mount: no context, nothing tracked. -/
def stPlain : AudioState :=
  { ctx := none, ctxCount := 0, current := none, started := [], stopped := []
    nextHandle := 0, buffers := [], loading := false, apiError := false }

/-- A freshly constructed running context. -/
def ctxFresh : AudioCtx :=
  { sampleRate := 24000, running := true, id := 0 }

/-- `stPlain` after a first successful `initAudio`. -/
def stFresh : AudioState :=
  { stPlain with ctx := some ctxFresh, ctxCount := 1 }

/-- Oracle of a call whose synthesis response carries no audio payload. -/
def envNoAudio : TTSEnv :=
  { init := { newSuspended := false, resumeFails := false }
    apiKey := some "validKey123", request := Except.ok none }

/-- State for the overlap scenario: a context exists and handle 0 is playing
and tracked. -/
def stOnePlaying : AudioState :=
  { ctx := some ctxFresh, ctxCount := 1, current := some 0, started := [0]
    stopped := [], nextHandle := 1, buffers := [], loading := false
    apiError := false }

/-- The schedule in which call B starts while call A's request is pending
and A's response arrives last: A's prologue and request, B's three segments,
then A's response handling. -/
def overlapSched : List Bool :=
  [true, true, false, false, false, true]

/-! ### Helper lemmas -/

/-- `initAudioTotal` only touches the context fields. -/
theorem initAudioTotal_current (t : AudioState) :
    (initAudioTotal t).current = t.current := by
  unfold initAudioTotal initAudio
  cases ht : t.ctx with
  | none => simp [ht]
  | some c => by_cases hr : c.running <;> simp [ht, hr]

/-- `stopCurrentAudio` always leaves the tracked reference cleared. -/
theorem stopCurrentAudio_current (s : AudioState) :
    (stopCurrentAudio s).current = none := by
  cases hc : s.current with
  | none => simp [stopCurrentAudio, hc]
  | some h =>
    by_cases hm : h ∈ s.started <;> simp [stopCurrentAudio, hc, sourceStop, hm]

/-- Every boolean list is produced by `boolLists` at its length. -/
theorem mem_boolLists (l : List Bool) : l ∈ boolLists l.length := by
  induction l with
  | nil => simp [boolLists]
  | cons b t ih =>
    show b :: t ∈ boolLists (t.length + 1)
    simp only [boolLists, List.mem_flatMap]
    exact ⟨t, ih, by cases b <;> simp⟩

/-! ### Claims -/

/-- C5 (evaluation at the failing input): decoding the empty byte buffer
does NOT return a zero-frame buffer without error — the frame count is zero,
so the source's `ctx.createBuffer(1, 0, 24000)` throws `NotSupportedError`
(Web Audio forbids a zero length), contradicting the claim and the spec's
documented fail-soft, zero-frame-no-error behaviour. -/
theorem decodeAudioData_empty_throws :
    decodeAudioData [] 24000 1 = Except.error () := rfl

/-- C9: `checkApiKey` reports the configuration invalid exactly when the
credential is absent, the literal "undefined", empty, or shorter than 10
characters; a length-5 credential is invalid and a non-placeholder length-10
credential is valid. The embedding is a total function, so the check never
raises. -/
theorem checkApiKey_spec :
    (∀ envKey, checkApiKey envKey = false ↔ keyInvalidSpec envKey) ∧
    checkApiKey (some "abcde") = false ∧
    checkApiKey (some "ABCDEFGHIJ") = true := by
  refine ⟨?_, by decide, by decide⟩
  intro envKey
  cases envKey with
  | none => simp [checkApiKey, keyInvalidSpec]
  | some k =>
    by_cases h : k = "undefined" ∨ k = "" ∨ k.length < 10 <;>
      simp [checkApiKey, keyInvalidSpec, h]

/-- C7: `stopCurrentAudio` never raises (it is a total function even though
the underlying `stop()` throws on a never-started source — that error is
swallowed by the inner `try`/`catch`); the tracked reference is cleared
regardless of whether stopping succeeded, and the call is a no-op when no
handle is tracked. -/
theorem stopCurrentAudio_spec :
    ∀ s : AudioState,
      (stopCurrentAudio s).current = none ∧
      (s.current = none → stopCurrentAudio s = s) ∧
      (∀ h, s.current = some h → h ∉ s.started →
        stopCurrentAudio s = { s with current := none }) ∧
      (∀ h, s.current = some h → h ∈ s.started →
        stopCurrentAudio s =
          { s with current := none, stopped := h :: s.stopped }) := by
  intro s
  refine ⟨stopCurrentAudio_current s, ?_, ?_, ?_⟩
  · intro hc; simp [stopCurrentAudio, hc]
  · intro h hc hm; simp [stopCurrentAudio, hc, sourceStop, hm]
  · intro h hc hm; simp [stopCurrentAudio, hc, sourceStop, hm]

/-- Witness for C7: stopping from a state that tracks a never-started
handle returns normally with the reference cleared. -/
theorem stopCurrentAudio_spec_w :
    stopCurrentAudio { stPlain with current := some 7 } =
      { { stPlain with current := some 7 } with current := none } ∧
    (stopCurrentAudio { stPlain with current := some 7 }).current = none :=
  ⟨(stopCurrentAudio_spec { stPlain with current := some 7 }).2.2.1 7 rfl
      (by decide),
   (stopCurrentAudio_spec { stPlain with current := some 7 }).1⟩

/-- C8: `initAudio` is idempotent; the context is constructed at most once
(only when none exists yet, with sample rate 24000), a suspended context is
resumed before being returned, and two calls without an intervening suspend
both return the same running instance without a second construction. -/
theorem initAudio_idempotent :
    ∀ (e1 e2 : InitEnv) (s : AudioState),
      e1.resumeFails = false → e2.resumeFails = false →
      ∃ c1 s1,
        initAudio e1 s = Except.ok (c1, s1) ∧
        initAudio e2 s1 = Except.ok (c1, s1) ∧
        c1.running = true ∧
        s1.ctx = some c1 ∧
        (s.ctx = none →
          s1.ctxCount = s.ctxCount + 1 ∧ c1.sampleRate = 24000 ∧
            c1.id = s.ctxCount) ∧
        (∀ c0, s.ctx = some c0 →
          s1.ctxCount = s.ctxCount ∧ c1.id = c0.id ∧
            c1.sampleRate = c0.sampleRate) := by
  intro e1 e2 s h1 h2
  cases hs : s.ctx with
  | none =>
    cases hn : e1.newSuspended with
    | false =>
      refine ⟨{ sampleRate := 24000, running := true, id := s.ctxCount },
        { s with ctx := some { sampleRate := 24000, running := true, id := s.ctxCount },
                 ctxCount := s.ctxCount + 1 }, ?_, ?_, rfl, rfl, ?_, ?_⟩
      · simp [initAudio, hs, hn]
      · simp [initAudio]
      · intro _; exact ⟨rfl, rfl, rfl⟩
      · intro c0 hc0; exact Option.noConfusion hc0
    | true =>
      refine ⟨{ sampleRate := 24000, running := true, id := s.ctxCount },
        { s with ctx := some { sampleRate := 24000, running := true, id := s.ctxCount },
                 ctxCount := s.ctxCount + 1 }, ?_, ?_, rfl, rfl, ?_, ?_⟩
      · simp [initAudio, hs, hn, h1]
      · simp [initAudio]
      · intro _; exact ⟨rfl, rfl, rfl⟩
      · intro c0 hc0; exact Option.noConfusion hc0
  | some c0 =>
    cases hr : c0.running with
    | true =>
      refine ⟨c0, s, ?_, ?_, hr, hs, ?_, ?_⟩
      · simp [initAudio, hs, hr]
      · simp [initAudio, hs, hr]
      · intro hnone; exact Option.noConfusion hnone
      · intro c0b hc0b; injection hc0b with hcc; subst hcc
        exact ⟨rfl, rfl, rfl⟩
    | false =>
      refine ⟨{ c0 with running := true },
        { s with ctx := some { c0 with running := true } }, ?_, ?_, rfl, rfl,
        ?_, ?_⟩
      · simp [initAudio, hs, hr, h1]
      · simp [initAudio]
      · intro hnone; exact Option.noConfusion hnone
      · intro c0b hc0b; injection hc0b with hcc; subst hcc
        exact ⟨rfl, rfl, rfl⟩

/-- Witness for C8: two acquisitions from the fresh state, both resumable. -/
theorem initAudio_idempotent_w :
    ∃ c1 s1,
      initAudio { newSuspended := false, resumeFails := false } stPlain =
        Except.ok (c1, s1) ∧
      initAudio { newSuspended := false, resumeFails := false } s1 =
        Except.ok (c1, s1) ∧
      c1.running = true ∧
      s1.ctx = some c1 ∧
      (stPlain.ctx = none →
        s1.ctxCount = stPlain.ctxCount + 1 ∧ c1.sampleRate = 24000 ∧
          c1.id = stPlain.ctxCount) ∧
      (∀ c0, stPlain.ctx = some c0 →
        s1.ctxCount = stPlain.ctxCount ∧ c1.id = c0.id ∧
          c1.sampleRate = c0.sampleRate) :=
  initAudio_idempotent { newSuspended := false, resumeFails := false }
    { newSuspended := false, resumeFails := false } stPlain rfl rfl

/-- C2 (evaluation at the failing input): a call whose synthesis response
carries no audio payload settles without error, creates and tracks no
handle, and leaves the error indicator untouched — but the loading
indicator, raised earlier in the call, is never set back to false: the
response-handling block is skipped entirely and only the `catch` clause or
a playback `onended` callback ever clears it. -/
theorem playTTS_noAudio_evaluation :
    ∃ s2, playTTS envNoAudio stPlain = Except.ok s2 ∧
      s2.loading = true ∧ s2.current = none ∧
      s2.nextHandle = stPlain.nextHandle ∧ s2.buffers = [] ∧
      s2.apiError = stPlain.apiError :=
  ⟨{ stFresh with loading := true }, by decide, rfl, rfl, rfl, rfl, rfl⟩

/-- C6 (counterexample): in the schedule where call B runs entirely while
call A's request is pending and A's response arrives last, both calls settle
with two handles active — A's late handle overwrites the tracked reference
without B's handle ever being stopped. -/
theorem playTTS_overlap_two_active :
    activeHandles (runCalls 1 2 overlapSched stOnePlaying) = [1, 2] ∧
    (activeHandles (runCalls 1 2 overlapSched stOnePlaying)).length = 2 ∧
    (runCalls 1 2 overlapSched stOnePlaying).current = some 1 := by decide

/-- C6 (amended): every `playTTS` call runs `stopCurrentAudio`
unconditionally as its first action, before any asynchronous step, so the
segment leaves no tracked handle; consequently, for any interleaving of two
overlapping calls, the handle that was playing before the calls began is
stopped, and the tracked current handle once both settle is one of the two
new handles — but a stale handle started after the other call's prologue is
never stopped, so up to two handles can be active (see the counterexample). -/
theorem playTTS_overlap_amended :
    (∀ (h : Nat) (b : String) (s : AudioState),
      (speakStep h b 0 s).current = none) ∧
    (∀ sched : List Bool, sched.length = 6 → countTrue sched = 3 →
      0 ∈ (runCalls 1 2 sched stOnePlaying).stopped ∧
      ((runCalls 1 2 sched stOnePlaying).current = some 1 ∨
        (runCalls 1 2 sched stOnePlaying).current = some 2)) := by
  constructor
  · intro h b s
    show (initAudioTotal (stopCurrentAudio s)).current = none
    rw [initAudioTotal_current, stopCurrentAudio_current]
  · intro sched hlen hcnt
    have hm : sched ∈ boolLists 6 := by rw [← hlen]; exact mem_boolLists sched
    have key : ∀ l ∈ boolLists 6, countTrue l = 3 →
        0 ∈ (runCalls 1 2 l stOnePlaying).stopped ∧
        ((runCalls 1 2 l stOnePlaying).current = some 1 ∨
          (runCalls 1 2 l stOnePlaying).current = some 2) := by decide
    exact key sched hm hcnt

/-- Witness for C6's amended theorem: the schedule where call A settles
before call B starts. -/
theorem playTTS_overlap_amended_w :
    0 ∈ (runCalls 1 2 [true, true, true, false, false, false]
          stOnePlaying).stopped ∧
    ((runCalls 1 2 [true, true, true, false, false, false]
          stOnePlaying).current = some 1 ∨
      (runCalls 1 2 [true, true, true, false, false, false]
          stOnePlaying).current = some 2) :=
  playTTS_overlap_amended.2 [true, true, true, false, false, false] rfl
    (by decide)

/-! ### Permutation lemmas for the Fisher-Yates swap -/

/-- Swapping the head with the element at position `m` is a permutation. -/
theorem set_head_swap_perm {α : Type} :
    ∀ (t : List α) (m : Nat), m < t.length → ∀ (a d : α),
      List.Perm (t.getD m d :: t.set m a) (a :: t) := by
  intro t
  induction t with
  | nil => intro m hm; exact absurd hm (Nat.not_lt_zero m)
  | cons b t ih =>
    intro m hm a d
    cases m with
    | zero =>
      simp only [List.getD_cons_zero, List.set_cons_zero]
      exact List.Perm.swap a b t
    | succ m =>
      have hm2 : m < t.length := by simpa using hm
      simp only [List.getD_cons_succ, List.set_cons_succ]
      exact List.Perm.trans
        (List.Perm.swap b (t.getD m d) (t.set m a))
        (List.Perm.trans (List.Perm.cons b (ih m hm2 a d))
          (List.Perm.swap a b t))

/-- Exchanging two in-range positions is a permutation. -/
theorem set_set_swap_perm {α : Type} :
    ∀ (l : List α) (i j : Nat), i < l.length → j < l.length → ∀ (d : α),
      List.Perm ((l.set i (l.getD j d)).set j (l.getD i d)) l := by
  intro l
  induction l with
  | nil => intro i j hi; exact absurd hi (Nat.not_lt_zero i)
  | cons b t ih =>
    intro i j hi hj d
    cases i with
    | zero =>
      cases j with
      | zero => simp
      | succ m =>
        have hm : m < t.length := by simpa using hj
        simp only [List.getD_cons_zero, List.getD_cons_succ,
          List.set_cons_zero, List.set_cons_succ]
        exact set_head_swap_perm t m hm b d
    | succ k =>
      cases j with
      | zero =>
        have hk : k < t.length := by simpa using hi
        simp only [List.getD_cons_zero, List.getD_cons_succ,
          List.set_cons_zero, List.set_cons_succ]
        exact set_head_swap_perm t k hk b d
      | succ m =>
        have hk : k < t.length := by simpa using hi
        have hm : m < t.length := by simpa using hj
        simp only [List.getD_cons_succ, List.set_cons_succ]
        exact List.Perm.cons b (ih k m hk hm d)

/-- The guarded swap of the embedding always yields a permutation. -/
theorem listSwap_perm {α : Type} (l : List α) (i j : Nat) :
    List.Perm (listSwap l i j) l := by
  unfold listSwap
  cases hi : l[i]? with
  | none => cases hj : l[j]? <;> exact List.Perm.refl l
  | some a =>
    cases hj : l[j]? with
    | none => exact List.Perm.refl l
    | some b =>
      obtain ⟨hiL, hia⟩ := List.getElem?_eq_some_iff.mp hi
      obtain ⟨hjL, hjb⟩ := List.getElem?_eq_some_iff.mp hj
      have e1 : l.getD j a = b := by
        simp [List.getD_eq_getElem?_getD, hj]
      have e2 : l.getD i a = a := by
        simp [List.getD_eq_getElem?_getD, hi]
      have h := set_set_swap_perm l i j hiL hjL a
      rw [e1, e2] at h
      exact h

/-- Every pass of the Fisher-Yates loop preserves the multiset of elements. -/
theorem shuffleAux_perm {α : Type} (r : Nat → Nat) :
    ∀ (n : Nat) (l : List α), List.Perm (shuffleAux r n l) l
  | 0, l => List.Perm.refl l
  | n + 1, l =>
    List.Perm.trans (shuffleAux_perm r n (listSwap l (n + 1) (r (n + 1))))
      (listSwap_perm l (n + 1) (r (n + 1)))

/-- C10: for every input list and every outcome of the random draws,
`shuffleArray` returns a permutation of its input — same length, same
multiset of elements. (The source copies the input before the loop, and the
embedding's value semantics make the input itself untouched.) -/
theorem shuffleArray_perm :
    ∀ {α : Type} (r : Nat → Nat) (l : List α),
      List.Perm (shuffleArray r l) l ∧
      (shuffleArray r l).length = l.length := by
  intro α r l
  have h := shuffleAux_perm r (l.length - 1) l
  exact ⟨h, h.length_eq⟩

/-! ### PCM decoder lemmas -/

/-- The `Int16Array` view has `byteLength / 2` entries. -/
theorem toInt16List_length : ∀ l : List Nat, (toInt16List l).length = l.length / 2
  | [] => rfl
  | [_] => by simp [toInt16List]
  | a :: b :: rest => by
    simp only [toInt16List, List.length_cons, toInt16List_length rest]
    omega

/-- A 16-bit sample from two bytes lies in the signed 16-bit range. -/
theorem toInt16_bounds (lo hi : Nat) (hlo : lo < 256) (hhi : hi < 256) :
    -32768 ≤ toInt16 lo hi ∧ toInt16 lo hi ≤ 32767 := by
  unfold toInt16
  split <;> omega

/-- Every entry of the `Int16Array` view of a byte buffer is in range. -/
theorem toInt16List_mem_bounds :
    ∀ l : List Nat, (∀ b ∈ l, b < 256) →
      ∀ x ∈ toInt16List l, -32768 ≤ x ∧ x ≤ 32767
  | [] => by intro _ x hx; simp [toInt16List] at hx
  | [_] => by intro _ x hx; simp [toInt16List] at hx
  | lo :: hi :: rest => by
    intro hb x hx
    simp only [toInt16List, List.mem_cons] at hx
    rcases hx with h | h
    · subst h
      exact toInt16_bounds lo hi (hb lo (by simp)) (hb hi (by simp))
    · exact toInt16List_mem_bounds rest (fun b hb2 => hb b (by simp [hb2])) x h

/-- The `i`-th entry of the view is the 16-bit value of bytes `2i, 2i+1`. -/
theorem toInt16List_getD : ∀ (l : List Nat) (i : Nat), 2 * i + 1 < l.length →
    (toInt16List l).getD i 0 = toInt16 (l.getD (2 * i) 0) (l.getD (2 * i + 1) 0)
  | [], _, h => by simp at h
  | [_], i, h => by simp at h
  | lo :: hi :: rest, 0, _ => by simp [toInt16List]
  | lo :: hi :: rest, i + 1, h => by
    have h2 : 2 * i + 1 < rest.length := by
      simp only [List.length_cons] at h; omega
    have ih := toInt16List_getD rest i h2
    have e1 : (lo :: hi :: rest).getD (2 * (i + 1)) 0 = rest.getD (2 * i) 0 := by
      rw [show 2 * (i + 1) = 2 * i + 1 + 1 from by omega,
        List.getD_cons_succ, List.getD_cons_succ]
    have e2 : (lo :: hi :: rest).getD (2 * (i + 1) + 1) 0 =
        rest.getD (2 * i + 1) 0 := by
      rw [show 2 * (i + 1) + 1 = 2 * i + 1 + 1 + 1 from by omega,
        List.getD_cons_succ, List.getD_cons_succ]
    rw [e1, e2]
    simp only [toInt16List, List.getD_cons_succ]
    exact ih

/-- C3 (counterexample): the claim quantifies over every even-length
buffer, including the empty one, where the source does not return a
`floor(byteLength/2)`-sample buffer: the frame count is zero, so
`ctx.createBuffer` throws. -/
theorem decodeAudioData_mono_spec_cex :
    (decodeAudioData [] 24000 1).isOk = false := rfl

/-- C3 (amended): on a NONEMPTY even-length byte buffer of bytes below 256,
interpreted as mono 16-bit signed little-endian PCM, `decodeAudioData`
returns without error exactly one channel of `byteLength / 2` samples, the
sample at frame `i` being the `i`-th little-endian 16-bit integer divided
by 32768, and every sample lies in the interval from -1 to 1. -/
theorem decodeAudioData_mono_spec :
    ∀ data : List Nat, (∀ b ∈ data, b < 256) → data.length % 2 = 0 →
      data ≠ [] →
      ∃ ch, decodeAudioData data 24000 1 =
          Except.ok { sampleRate := 24000, numChannels := 1, channels := [ch] } ∧
        ch.length = data.length / 2 ∧
        (∀ i, i < ch.length →
          ch.getD i 0 =
            ((toInt16 (data.getD (2 * i) 0) (data.getD (2 * i + 1) 0) : Int) :
              Rat) / 32768) ∧
        (∀ q ∈ ch, -1 ≤ q ∧ q ≤ 1) := by
  intro data hB heven hne
  refine ⟨(List.range (toInt16List data).length).map (fun i =>
      (((toInt16List data).getD i 0 : Int) : Rat) / 32768), ?_, ?_, ?_, ?_⟩
  · have hfc : ¬ ((1 : Nat) = 0 ∨ (toInt16List data).length / 1 = 0) := by
      rw [toInt16List_length]
      have h0 : data.length ≠ 0 := fun h => hne (List.length_eq_zero.mp h)
      omega
    simp only [decodeAudioData]
    rw [if_neg hfc]
    simp [List.range_succ, Nat.div_one]
  · simp [List.length_map, List.length_range, toInt16List_length]
  · intro i hi
    simp only [List.length_map, List.length_range] at hi
    have hv : ((List.range (toInt16List data).length).map (fun i =>
        (((toInt16List data).getD i 0 : Int) : Rat) / 32768))[i]? =
        some ((((toInt16List data).getD i 0 : Int) : Rat) / 32768) := by
      simp [List.getElem?_map, List.getElem?_range hi]
    rw [List.getD_eq_getElem?_getD, hv]
    have hlen : 2 * i + 1 < data.length := by
      rw [toInt16List_length] at hi
      omega
    rw [Option.getD_some, toInt16List_getD data i hlen]
  · intro q hq
    rcases List.mem_map.mp hq with ⟨i, _hi, rfl⟩
    have hx : -32768 ≤ (toInt16List data).getD i 0 ∧
        (toInt16List data).getD i 0 ≤ 32767 := by
      rcases h : (toInt16List data)[i]? with _ | x
      · rw [List.getD_eq_getElem?_getD, h, Option.getD_none]
        exact ⟨by omega, by omega⟩
      · rw [List.getD_eq_getElem?_getD, h, Option.getD_some]
        exact toInt16List_mem_bounds data hB x (List.getElem?_mem h)
    constructor
    · rw [le_div_iff₀ (by norm_num : (0 : Rat) < 32768)]
      have : ((-32768 : Int) : Rat) ≤ (((toInt16List data).getD i 0 : Int) : Rat) := by
        exact_mod_cast hx.1
      push_cast at this ⊢
      linarith
    · rw [div_le_one (by norm_num : (0 : Rat) < 32768)]
      have : (((toInt16List data).getD i 0 : Int) : Rat) ≤ ((32767 : Int) : Rat) := by
        exact_mod_cast hx.2
      push_cast at this ⊢
      linarith

/-- Witness for C3: the two-sample buffer holding -32768 and 32767. -/
theorem decodeAudioData_mono_spec_w :
    ∃ ch, decodeAudioData [0, 128, 255, 127] 24000 1 =
        Except.ok { sampleRate := 24000, numChannels := 1, channels := [ch] } ∧
      ch.length = [0, 128, 255, 127].length / 2 ∧
      (∀ i, i < ch.length →
        ch.getD i 0 =
          ((toInt16 ([0, 128, 255, 127].getD (2 * i) 0)
              ([0, 128, 255, 127].getD (2 * i + 1) 0) : Int) : Rat) / 32768) ∧
      (∀ q ∈ ch, -1 ≤ q ∧ q ≤ 1) :=
  decodeAudioData_mono_spec [0, 128, 255, 127] (by decide) rfl (by decide)

/-! ### Base64 round-trip lemmas -/

/-- Looking up the character of an alphabet index recovers the index. -/
theorem b64Index_b64Char : ∀ v, v < 64 → b64Index (b64Char v) = some v := by
  decide

/-- Alphabet characters are neither padding nor whitespace. -/
theorem b64Char_props (v : Nat) :
    b64Char v ≠ '=' ∧ isB64Ws (b64Char v) = false := by
  by_cases h : v < 64
  · exact (by decide :
      ∀ w, w < 64 → b64Char w ≠ '=' ∧ isB64Ws (b64Char w) = false) v h
  · have hlen : base64Chars.length ≤ v := by
      have h64 : base64Chars.length = 64 := by decide
      omega
    have hA : b64Char v = 'A' := by
      unfold b64Char
      rw [List.getD_eq_getElem?_getD, List.getElem?_eq_none hlen,
        Option.getD_none]
    rw [hA]
    exact ⟨by decide, by decide⟩

/-- A mapped alphabet string never ends in a padding character. -/
theorem map_b64Char_getLast (vs : List Nat) :
    (vs.map b64Char).getLast? ≠ some '=' := by
  intro h
  rcases List.mem_map.mp (List.mem_of_getLast?_eq_some h) with ⟨v, _, hv⟩
  exact (b64Char_props v).1 hv

/-- Decoding a mapped alphabet string succeeds with the original indices. -/
theorem mapB64_map : ∀ vs : List Nat, (∀ v ∈ vs, v < 64) →
    mapB64 (vs.map b64Char) = some vs
  | [] => by intro _; rfl
  | v :: vs => by
    intro h
    simp only [List.map_cons, mapB64]
    rw [b64Index_b64Char v (h v (by simp)),
      mapB64_map vs (fun w hw => h w (by simp [hw]))]

/-- The 6-bit values of an encoding of bytes are below 64. -/
theorem encVals_lt : ∀ bs : List Nat, (∀ b ∈ bs, b < 256) →
    ∀ v ∈ encVals bs, v < 64
  | [] => by intro _ v hv; simp [encVals] at hv
  | [x] => by
    intro hb v hv
    have hx : x < 256 := hb x (by simp)
    simp only [encVals, List.mem_cons, List.not_mem_nil, or_false] at hv
    rcases hv with rfl | rfl <;> omega
  | [x, y] => by
    intro hb v hv
    have hx : x < 256 := hb x (by simp)
    have hy : y < 256 := hb y (by simp)
    simp only [encVals, List.mem_cons, List.not_mem_nil, or_false] at hv
    rcases hv with rfl | rfl | rfl <;> omega
  | x :: y :: z :: rest => by
    intro hb v hv
    have hx : x < 256 := hb x (by simp)
    have hy : y < 256 := hb y (by simp)
    have hz : z < 256 := hb z (by simp)
    simp only [encVals, List.mem_cons] at hv
    rcases hv with rfl | rfl | rfl | rfl | h
    · omega
    · omega
    · omega
    · omega
    · exact encVals_lt rest (fun b hb2 => hb b (by simp [hb2])) v h

/-- Reassembling the 6-bit values of an encoding recovers the bytes. -/
theorem decode_encVals : ∀ bs : List Nat, (∀ b ∈ bs, b < 256) →
    decodeB64Chunks (encVals bs) = bs
  | [] => by intro _; rfl
  | [x] => by
    intro hb
    have hx : x < 256 := hb x (by simp)
    have e1 : x / 4 * 4 + x % 4 * 16 / 16 = x := by omega
    simp only [encVals, decodeB64Chunks]
    rw [e1]
  | [x, y] => by
    intro hb
    have hx : x < 256 := hb x (by simp)
    have hy : y < 256 := hb y (by simp)
    have e1 : x / 4 * 4 + (x % 4 * 16 + y / 16) / 16 = x := by omega
    have e2 : (x % 4 * 16 + y / 16) % 16 * 16 + y % 16 * 4 / 4 = y := by omega
    simp only [encVals, decodeB64Chunks]
    rw [e1, e2]
  | x :: y :: z :: rest => by
    intro hb
    have hx : x < 256 := hb x (by simp)
    have hy : y < 256 := hb y (by simp)
    have hz : z < 256 := hb z (by simp)
    have e1 : x / 4 * 4 + (x % 4 * 16 + y / 16) / 16 = x := by omega
    have e2 : (x % 4 * 16 + y / 16) % 16 * 16 + (y % 16 * 4 + z / 64) / 4 = y := by
      omega
    have e3 : (y % 16 * 4 + z / 64) % 4 * 64 + z % 64 = z := by omega
    simp only [encVals, decodeB64Chunks]
    rw [e1, e2, e3,
      decode_encVals rest (fun b hb2 => hb b (by simp [hb2]))]

/-- The encoding is the mapped 6-bit values followed by the padding. -/
theorem encodeChunks_decomp : ∀ bs : List Nat,
    encodeChunks bs = (encVals bs).map b64Char ++
      List.replicate ((3 - bs.length % 3) % 3) '='
  | [] => rfl
  | [x] => rfl
  | [x, y] => rfl
  | x :: y :: z :: rest => by
    have ih := encodeChunks_decomp rest
    simp only [encodeChunks, encVals, List.map_cons, List.cons_append]
    rw [ih]
    have h3 : (x :: y :: z :: rest).length % 3 = rest.length % 3 := by
      simp only [List.length_cons]; omega
    rw [h3]

/-- The character count of an encoding, padding included, is a multiple
of four. -/
theorem encVals_length : ∀ bs : List Nat,
    (encVals bs).length + (3 - bs.length % 3) % 3 = 4 * ((bs.length + 2) / 3)
  | [] => rfl
  | [x] => by
    simp only [encVals, List.length_cons, List.length_nil]
  | [x, y] => by
    simp only [encVals, List.length_cons, List.length_nil]
  | x :: y :: z :: rest => by
    have ih := encVals_length rest
    simp only [encVals, List.length_cons]
    omega

/-- Stripping the padding of an encoding recovers the mapped values. -/
theorem stripPad_pads (L : List Char) (hL : L.getLast? ≠ some '=') :
    ∀ k, k ≤ 2 → stripPad (L ++ List.replicate k '=') = L := by
  intro k hk
  rcases k with _ | _ | _ | k
  · simp [stripPad, hL]
  · simp [stripPad, List.replicate_one, List.getLast?_concat,
      List.dropLast_concat, hL]
  · have h2 : L ++ List.replicate 2 '=' = (L ++ ['=']) ++ ['='] := by
      simp
    rw [h2]
    simp [stripPad, List.getLast?_concat, List.dropLast_concat, hL]
  · omega

/-- Decoding an encoding with `atob` succeeds and recovers the bytes. -/
theorem atob_encode (bs : List Nat) (hB : ∀ b ∈ bs, b < 256) :
    atob (encodeBase64 bs) = some bs := by
  have hvals : ∀ v ∈ encVals bs, v < 64 := encVals_lt bs hB
  have hfilter : (encodeChunks bs).filter (fun c => !(isB64Ws c)) =
      encodeChunks bs := by
    rw [List.filter_eq_self]
    intro c hc
    rw [encodeChunks_decomp] at hc
    rcases List.mem_append.mp hc with h | h
    · rcases List.mem_map.mp h with ⟨v, _, rfl⟩
      simp [(b64Char_props v).2]
    · rw [List.eq_of_mem_replicate h]
      decide
  have hlen4 : (encodeChunks bs).length % 4 = 0 := by
    rw [encodeChunks_decomp]
    have h1 := encVals_length bs
    simp only [List.length_append, List.length_map, List.length_replicate]
    omega
  have hstrip : stripPad (encodeChunks bs) = (encVals bs).map b64Char := by
    rw [encodeChunks_decomp]
    exact stripPad_pads _ (map_b64Char_getLast (encVals bs)) _ (by omega)
  have hlen1 : ¬ ((encVals bs).map b64Char).length % 4 = 1 := by
    have h1 := encVals_length bs
    simp only [List.length_map]
    omega
  show atob (String.mk (encodeChunks bs)) = some bs
  simp only [atob]
  rw [show (String.mk (encodeChunks bs)).toList = encodeChunks bs from rfl]
  rw [hfilter]
  rw [if_pos hlen4]
  rw [hstrip]
  rw [if_neg hlen1]
  rw [mapB64_map (encVals bs) hvals]
  show some (decodeB64Chunks (encVals bs)) = some bs
  rw [decode_encVals bs hB]

/-- C4: `decodeBase64` never propagates an exception — when `atob` throws on
malformed input the catch returns a zero-length byte sequence — and on a
valid base64 encoding of N bytes it returns exactly those N bytes in order. -/
theorem decodeBase64_spec :
    (∀ s, atob s = none → decodeBase64 s = []) ∧
    (∀ bytes : List Nat, (∀ b ∈ bytes, b < 256) →
      decodeBase64 (encodeBase64 bytes) = bytes) := by
  constructor
  · intro s h
    simp [decodeBase64, h]
  · intro bytes hB
    simp [decodeBase64, atob_encode bytes hB]

/-- Witness for C4: a five-byte round trip, and a malformed string decoding
to the empty sequence. -/
theorem decodeBase64_spec_w :
    decodeBase64 (encodeBase64 [77, 97, 110, 255, 0]) = [77, 97, 110, 255, 0] ∧
    decodeBase64 "%%%" = [] :=
  ⟨decodeBase64_spec.2 [77, 97, 110, 255, 0] (by decide),
    decodeBase64_spec.1 "%%%" (by decide)⟩

/-- Witness for C9: the placeholder literal is reported invalid via the
specification-side condition. -/
theorem checkApiKey_spec_w :
    checkApiKey (some "undefined") = false ∧
    checkApiKey (some "abcde") = false ∧
    checkApiKey (some "ABCDEFGHIJ") = true :=
  ⟨(checkApiKey_spec.1 (some "undefined")).mpr
      (Or.inr ⟨"undefined", rfl, Or.inl rfl⟩),
    checkApiKey_spec.2.1, checkApiKey_spec.2.2⟩

/-- Witness for C10: a concrete shuffle of five elements is a permutation. -/
theorem shuffleArray_perm_w :
    List.Perm (shuffleArray (fun i => i / 2) [10, 20, 30, 40, 50])
      [10, 20, 30, 40, 50] ∧
    (shuffleArray (fun i => i / 2) [10, 20, 30, 40, 50]).length =
      [10, 20, 30, 40, 50].length :=
  shuffleArray_perm (fun i => i / 2) [10, 20, 30, 40, 50]
